import Mathlib

/-!
# Verification of the chunked voxel world (`src/world.rs`)

Shallow embedding of the voxel-world core of the repository:

* `Chunk` — a 16×256×16 grid of optional voxels with incremental
  `sides_present` mask maintenance (`update_surroundings`), edit operations
  (`push_cube` / `remove_cube`) and the visible-instance rebuild (`mesh`);
* `World` — an association-list map from chunk keys to chunks with
  `push_cube` / `remove_cube` / `create_chunk`;
* `BlockRayTracer` — the Amanatides–Woo-style grid traversal
  (`new` / `move_to_next_cube` / `trace_chunk` / `trace_no_chunk` / `run`).

Modelling conventions:

* Machine integers (`i32` / `usize`) are modelled as `Int` / `Nat`; all values
  appearing in the claims are far from the overflow range.
* Rust panics (failed `assert!`, `Option::unwrap` on `None`, out-of-bounds
  slice indexing) are modelled by returning `none` from the operation.
* `f32` values are modelled as `ℚ`, with `+∞` (needed for the ray tracer's
  per-axis time-to-boundary) adjoined via the two-constructor type `F`.
  All float computations reached by the claims' inputs are exact powers of
  two, so exact rational arithmetic agrees with `f32` arithmetic there.
  `1.0 / 0.0 = +∞` (IEEE, no trap) is modelled by `F.invAbs`.
  `f32::round` (round half away from zero) is modelled by `fround`, and
  `cgmath`'s `normalize` by division with an exact rational square root
  (the claims only normalize vectors of magnitude exactly 1).
* The GPU-facing fields (`InstancesMesh` buffers, `queue`) are dropped;
  the rebuilt instance list of a dirty chunk is modelled by
  `Chunk.mesh_rebuild`, the body of the `if self.dirty` branch of
  `Chunk::mesh`.  The `Rc<Cell<bool>>` world-dirty flag shared between
  `World` and its chunks is modelled as the world's `dirty` field, set by
  the world-level operations exactly where the shared cell is set.
* The tracer's `run` loop has no structural termination measure (it is
  bounded by the radius check), so the loops take an explicit fuel
  argument; `none` means the fuel budget was exhausted, which does not
  happen at any of the inputs considered here.
-/

namespace VoxelWorld

set_option maxRecDepth 10000

/-- An RGBA color (`[f32; 4]`); colors are only stored and copied, never
computed on, so exact rationals model them faithfully. -/
structure Color where
  r : ℚ
  g : ℚ
  b : ℚ
  a : ℚ
deriving DecidableEq

/-- An integer position (`Point3<i32>` / `Vector3<i32>`). -/
structure Pos3 where
  x : Int
  y : Int
  z : Int
deriving DecidableEq

/-- Componentwise subtraction of integer positions (`Point3 - Point3`). -/
def Pos3.sub (p q : Pos3) : Pos3 := ⟨p.x - q.x, p.y - q.y, p.z - q.z⟩

/-- Squared euclidean length (`Vector3::magnitude2`). -/
def Pos3.mag2 (p : Pos3) : Int := p.x * p.x + p.y * p.y + p.z * p.z

/-- A rational position (`Point3<f32>` / `Vector3<f32>`). -/
structure Pos3q where
  x : ℚ
  y : ℚ
  z : ℚ
deriving DecidableEq

/-- `const Y_STRIDE: i32 = 16;` -/
def Y_STRIDE : Int := 16

/-- `const Z_STRIDE: i32 = 16 * 256;` -/
def Z_STRIDE : Int := 16 * 256

/-- `chunk_pos_to_index`: position inside a chunk to array index
(`x + y*16 + z*16*256`, computed in `i32` then cast to `usize`). -/
def chunk_pos_to_index (p : Pos3) : Int :=
  p.x + p.y * Y_STRIDE + p.z * Z_STRIDE

/-- `index_to_chunk_pos`: array index back to an in-chunk position. -/
def index_to_chunk_pos (i : Nat) : Pos3 :=
  ⟨(i % 16 : Nat), ((i / 16) % 256 : Nat), (i / 16 / 256 : Nat)⟩

/-- `chunk_id`: the key of the chunk containing a position
(`(x.div_euclid(16) * 16, z.div_euclid(16) * 16)`). -/
def chunk_id (p : Pos3) : Int × Int :=
  (p.x.ediv 16 * 16, p.z.ediv 16 * 16)

/-- The in-chunk extent: `0 ≤ x < 16`, `0 ≤ y < 256`, `0 ≤ z < 16`. -/
def inExtent (p : Pos3) : Prop :=
  0 ≤ p.x ∧ p.x < 16 ∧ 0 ≤ p.y ∧ p.y < 256 ∧ 0 ≤ p.z ∧ p.z < 16

instance (p : Pos3) : Decidable (inExtent p) := by
  unfold inExtent; infer_instance

/-- `ChunkCube`: a stored voxel (color plus the 6-entry `sides_present`
mask, index order TOP, BOTTOM, EAST, WEST, NORTH, SOUTH).  The mask is a
`List Bool` that always has length 6 (`[false; 6]` at creation, mutated
only by `List.set`). -/
structure ChunkCube where
  color : Color
  sides_present : List Bool
deriving DecidableEq

/-- `[true; 6]`, the fully-enclosed mask. -/
def all6true : List Bool := [true, true, true, true, true, true]

/-- `Cube` (from `object/cube.rs`): center plus color.  The source stores
the center as `Point3<f32>`; every cube the world code creates has integral
coordinates (it is built from `i32` positions and read back with
`cast::<i32>()`), so the center is modelled as an integer position. -/
structure Cube where
  center : Pos3
  color : Color
deriving DecidableEq

/-- The dense cell array of a chunk (`Box<[Option<ChunkCube>; 16*256*16]>`),
as a total function from array index; indices ≥ 16*256*16 are never read or
written by the model except where the Rust code would index out of bounds,
which is modelled as a panic (`none`) instead. -/
def Cubes : Type := Nat → Option ChunkCube

/-- Pointwise functional update of the cell array. -/
def updateAt (cb : Cubes) (k : Nat) (v : Option ChunkCube) : Cubes :=
  fun j => if j = k then v else cb j

/-- `Chunk`: start corner (world XZ), cell array, dirty flag.  The
`InstancesMesh` GPU buffer and the shared `world_dirty_ref` cell are
dropped (see the header comment). -/
structure Chunk where
  start : Int × Int
  cubes : Cubes
  dirty : Bool

/-- `Chunk::new`: empty cell array, dirty. -/
def Chunk.new (start : Int × Int) : Chunk :=
  ⟨start, fun _ => none, true⟩

/-- `Chunk::in_relative_chunk_pos`: `pos - (start.x, 0, start.y)`. -/
def Chunk.in_relative_chunk_pos (c : Chunk) (pos : Pos3) : Pos3 :=
  ⟨pos.x - c.start.1, pos.y, pos.z - c.start.2⟩

/-- `Chunk::in_chunk_pos`: relative position if inside the footprint. -/
def Chunk.in_chunk_pos (c : Chunk) (pos : Pos3) : Option Pos3 :=
  let cp := c.in_relative_chunk_pos pos
  if inExtent cp then some cp else none

/-- The 6 neighbor positions of `update_surroundings`, in source order:
TOP (y+1), BOTTOM (y-1), EAST (x+1), WEST (x-1), NORTH (z+1), SOUTH (z-1). -/
def aroundPos (p : Pos3) : Fin 6 → Pos3
  | 0 => ⟨p.x, p.y + 1, p.z⟩
  | 1 => ⟨p.x, p.y - 1, p.z⟩
  | 2 => ⟨p.x + 1, p.y, p.z⟩
  | 3 => ⟨p.x - 1, p.y, p.z⟩
  | 4 => ⟨p.x, p.y, p.z + 1⟩
  | 5 => ⟨p.x, p.y, p.z - 1⟩

/-- The in-range check of `update_surroundings` (`world.rs:107-112`),
translated faithfully: the fourth conjunct is `cube_pos.x < 256`
(the source's line 110), not `cube_pos.y < 256`. -/
def inRangeBuggy (p : Pos3) : Bool :=
  decide (0 ≤ p.x) && decide (p.x < 16) && decide (0 ≤ p.y) &&
  decide (p.x < 256) && decide (0 ≤ p.z) && decide (p.z < 16)

/-- One iteration of the neighbor loop of `update_surroundings`
(`world.rs:105-141`): if `cube_pos` passes the in-range check, index the
cell array (indexing out of `[0, 16*256*16)` is a panic, `none`); when the
neighbor is occupied, record the side as present and flip the neighbor's
mask bit `i ^ 1` to `cube_present`. -/
def updNeighbor (cube_present : Bool) (i : Nat) (cube_pos : Pos3) :
    Cubes × List Bool → Option (Cubes × List Bool) :=
  fun s =>
    if inRangeBuggy cube_pos then
      let idx := chunk_pos_to_index cube_pos
      if 0 ≤ idx ∧ idx < 16 * 256 * 16 then
        match s.1 idx.toNat with
        | some other =>
            some (updateAt s.1 idx.toNat
                    (some { other with
                            sides_present :=
                              other.sides_present.set (i ^^^ 1) cube_present }),
                  s.2.set i true)
        | none => some (s.1, s.2.set i false)
      else none
    else some (s.1, s.2.set i false)

/-- `Chunk::update_surroundings` (`world.rs:89-146`): recompute the mask of
the cell at `p` and flip the facing bit of each in-range occupied neighbor.
Returns `none` when the Rust code would panic (the entry `assert!`, or an
out-of-bounds neighbor index). -/
def Chunk.update_surroundings (c : Chunk) (p : Pos3) : Option Chunk :=
  let index := chunk_pos_to_index p
  if 0 ≤ index ∧ index < 16 * 256 * 16 then
    let k := index.toNat
    let b := (c.cubes k).isSome
    match updNeighbor b 0 (aroundPos p 0) (c.cubes, List.replicate 6 false) with
    | none => none
    | some s0 =>
    match updNeighbor b 1 (aroundPos p 1) s0 with
    | none => none
    | some s1 =>
    match updNeighbor b 2 (aroundPos p 2) s1 with
    | none => none
    | some s2 =>
    match updNeighbor b 3 (aroundPos p 3) s2 with
    | none => none
    | some s3 =>
    match updNeighbor b 4 (aroundPos p 4) s3 with
    | none => none
    | some s4 =>
    match updNeighbor b 5 (aroundPos p 5) s4 with
    | none => none
    | some s5 =>
      match s5.1 k with
      | some cur =>
          some { c with cubes := updateAt s5.1 k (some { cur with sides_present := s5.2 }) }
      | none => some { c with cubes := s5.1 }
  else none

/-- `Chunk::push_cube` (`world.rs:153-168`): write the cell (mask
`[false; 6]`), update surroundings, mark dirty.  `none` models the
`unwrap` panic when the position is outside the footprint, or a panic
inside `update_surroundings`. -/
def Chunk.push_cube (c : Chunk) (cube : Cube) : Option Chunk :=
  match c.in_chunk_pos cube.center with
  | none => none
  | some cp =>
    let k := (chunk_pos_to_index cp).toNat
    let c1 : Chunk :=
      { c with cubes := updateAt c.cubes k (some ⟨cube.color, List.replicate 6 false⟩) }
    match c1.update_surroundings cp with
    | none => none
    | some c2 => some { c2 with dirty := true }

/-- `Chunk::remove_cube` (`world.rs:170-181`): clear the cell, update
surroundings, mark dirty. -/
def Chunk.remove_cube (c : Chunk) (pos : Pos3) : Option Chunk :=
  match c.in_chunk_pos pos with
  | none => none
  | some cp =>
    let k := (chunk_pos_to_index cp).toNat
    let c1 : Chunk := { c with cubes := updateAt c.cubes k none }
    match c1.update_surroundings cp with
    | none => none
    | some c2 => some { c2 with dirty := true }

/-- World position of the cell at array index `i` of chunk `c`
(`chunk_pos + (start.x, 0, start.y)`). -/
def Chunk.worldPosOfIndex (c : Chunk) (i : Nat) : Pos3 :=
  let cp := index_to_chunk_pos i
  ⟨cp.x + c.start.1, cp.y, cp.z + c.start.2⟩

/-- One loop iteration of the rebuild in the `if self.dirty` branch of
`Chunk::mesh` (`world.rs:183-205`): the instance emitted for array index
`i` — one per occupied cell whose mask is not `[true; 6]`, none
otherwise. -/
def Chunk.meshEntry (c : Chunk) (i : Nat) : Option Cube :=
  match c.cubes i with
  | some cube =>
      if cube.sides_present ≠ all6true then
        some ⟨c.worldPosOfIndex i, cube.color⟩
      else none
  | none => none

/-- The full rebuilt list: `meshEntry` applied to every array index. -/
def Chunk.mesh_rebuild (c : Chunk) : List Cube :=
  (List.range (16 * 256 * 16)).filterMap c.meshEntry

/-! ## World -/

/-- Association-list lookup, modelling `HashMap::get`. -/
def mapLookup (l : List ((Int × Int) × Chunk)) (k : Int × Int) : Option Chunk :=
  match l with
  | [] => none
  | (k', c) :: rest => if k' = k then some c else mapLookup rest k

/-- Association-list insert-or-replace, modelling `HashMap::insert`. -/
def mapInsert (l : List ((Int × Int) × Chunk)) (k : Int × Int) (c : Chunk) :
    List ((Int × Int) × Chunk) :=
  match l with
  | [] => [(k, c)]
  | (k', c') :: rest =>
      if k' = k then (k, c) :: rest else (k', c') :: mapInsert rest k c

/-- `World`: chunk map plus the shared dirty flag.  The cached world mesh
and the GPU queue are dropped (rendering resources, outside the claims). -/
structure World where
  chunks : List ((Int × Int) × Chunk)
  dirty : Bool

/-- `World::new`. -/
def World.new : World := ⟨[], false⟩

/-- `World::push_cube` (`world.rs:521-527`): fetch-or-create the chunk at
the cube's key, delegate.  Chunk creation and `Chunk::push_cube` both set
the shared world-dirty cell. -/
def World.push_cube (w : World) (cube : Cube) : Option World :=
  let cid := chunk_id cube.center
  let c0 := (mapLookup w.chunks cid).getD (Chunk.new cid)
  match c0.push_cube cube with
  | none => none
  | some c' => some ⟨mapInsert w.chunks cid c', true⟩

/-- `World::remove_cube` (`world.rs:529-539`): `assert!(pos.y >= 0)` at
entry (modelled as `none`, before any chunk lookup), then fetch-or-create
and delegate. -/
def World.remove_cube (w : World) (pos : Pos3) : Option World :=
  if pos.y < 0 then none
  else
    let cid := chunk_id pos
    let c0 := (mapLookup w.chunks cid).getD (Chunk.new cid)
    match c0.remove_cube pos with
    | none => none
    | some c' => some ⟨mapInsert w.chunks cid c', true⟩

/-- Push a list of cubes in order, stopping at the first panic. -/
def pushList (c : Chunk) : List Cube → Option Chunk
  | [] => some c
  | cube :: rest =>
      match c.push_cube cube with
      | none => none
      | some c' => pushList c' rest

/-- The cubes filled by `World::create_chunk`'s triple loop
(`for x in start_x..start_x+16 { for y in 0..start_y { for z in ... } }`). -/
def columnCubes (sx : Int) (h : Nat) (sz : Int) (color : Color) : List Cube :=
  (List.range 16).flatMap fun ix =>
    (List.range h).flatMap fun iy =>
      (List.range 16).map fun iz =>
        ⟨⟨sx + (ix : Int), (iy : Int), sz + (iz : Int)⟩, color⟩

/-- `World::create_chunk` (`world.rs:541-564`): build a fresh chunk, fill
the 16×h×16 column, insert it at the key; when the insert replaces an
existing chunk, emit the `WARN: Replacing chunk` line exactly once.  The
second component counts the warnings emitted by the call. -/
def World.create_chunk (w : World) (x : Int) (y : Nat) (z : Int) (color : Color) :
    Option (World × Nat) :=
  let cid := chunk_id ⟨x, 0, z⟩
  match pushList (Chunk.new cid) (columnCubes cid.1 y cid.2 color) with
  | none => none
  | some chunk =>
      let warn := if (mapLookup w.chunks cid).isSome then 1 else 0
      some (⟨mapInsert w.chunks cid chunk, true⟩, warn)

/-! ## Ray tracer -/

/-- An `f32` value that is either an exact finite rational or `+∞`. -/
inductive F where
  | fin : ℚ → F
  | inf : F
deriving DecidableEq

/-- IEEE `<` restricted to the values reached here: `+∞` is larger than
every finite value and `∞ < ∞` is false. -/
def F.lt : F → F → Bool
  | .fin a, .fin b => decide (a < b)
  | .fin _, .inf => true
  | .inf, _ => false

/-- IEEE `≤` on the same values. -/
def F.le : F → F → Bool
  | _, .inf => true
  | .inf, .fin _ => false
  | .fin a, .fin b => decide (a ≤ b)

/-- IEEE addition: `∞ + x = x + ∞ = ∞`. -/
def F.add : F → F → F
  | .fin a, .fin b => .fin (a + b)
  | _, _ => .inf

/-- `1.0 / x.abs()`: IEEE gives `+∞` at `x = 0` with no trap — the
divide-by-zero case the spec calls out. -/
def F.invAbs (q : ℚ) : F :=
  if q = 0 then .inf else .fin (1 / |q|)

/-- A triple of per-axis `f32` values. -/
structure F3 where
  x : F
  y : F
  z : F
deriving DecidableEq

/-- `f32::round`: nearest integer, half away from zero. -/
def fround (q : ℚ) : Int :=
  if 0 ≤ q then ⌊q + 1 / 2⌋ else -⌊-q + 1 / 2⌋

/-- Exact rational square root; exact whenever numerator and denominator
are perfect squares (all magnitudes the claims normalize are exactly 1). -/
def ratSqrt (q : ℚ) : ℚ :=
  (Nat.sqrt q.num.toNat : ℚ) / (Nat.sqrt q.den : ℚ)

/-- `cgmath`'s `InnerSpace::normalize`: divide by the magnitude. -/
def Pos3q.normalize (v : Pos3q) : Pos3q :=
  let m := ratSqrt (v.x * v.x + v.y * v.y + v.z * v.z)
  ⟨v.x / m, v.y / m, v.z / m⟩

/-- `TraceChunkResult`. -/
inductive TraceChunkResult where
  | BlockFound : Pos3 → Pos3 → TraceChunkResult
  | ChunkChange : Int × Int → TraceChunkResult
  | ExceededRadius : TraceChunkResult
deriving DecidableEq

/-- `CubeLookAt`: the found voxel and the incoming direction
(`last_cube - current_cube`). -/
structure CubeLookAt where
  cube : Pos3
  direction : Pos3
deriving DecidableEq

/-- `TraceResult`: visited path plus the optional hit. -/
structure TraceResult where
  path : List Pos3
  result_cube : Option CubeLookAt
deriving DecidableEq

/-- `BlockRayTracer` state (the `&World` borrow is passed to the loops
separately). -/
structure BlockRayTracer where
  dt : F3
  current_chunk : Int × Int
  chunk_inc_dir : Int × Int
  last_cube : Pos3
  current_cube : Pos3
  origin_cube_i32 : Pos3
  cube_inc_dir : Pos3
  t_next_cube : F3
  max_radius_i32 : Int
  path : List Pos3

/-- `BlockRayTracer::new` (`world.rs:308-385`). -/
def BlockRayTracer.new (origin : Pos3q) (direction : Pos3q) (max_radius : ℚ) :
    BlockRayTracer :=
  let d := direction.normalize
  let origin_cube : Pos3 := ⟨fround origin.x, fround origin.y, fround origin.z⟩
  let xpart : Int × F :=
    if d.x = 0 then (0, .inf)
    else if d.x < 0 then (-1, .fin ((origin.x + 1 / 2 - (fround origin.x : ℚ)) * (1 / |d.x|)))
    else (1, .fin (((fround origin.x : ℚ) + 1 / 2 - origin.x) * (1 / |d.x|)))
  let ypart : Int × F :=
    if d.y = 0 then (0, .inf)
    else if d.y < 0 then (-1, .fin ((origin.y + 1 / 2 - (fround origin.y : ℚ)) * (1 / |d.y|)))
    else (1, .fin (((fround origin.y : ℚ) + 1 / 2 - origin.y) * (1 / |d.y|)))
  let zpart : Int × F :=
    if d.z = 0 then (0, .inf)
    else if d.z < 0 then (-1, .fin ((origin.z + 1 / 2 - (fround origin.z : ℚ)) * (1 / |d.z|)))
    else (1, .fin (((fround origin.z : ℚ) + 1 / 2 - origin.z) * (1 / |d.z|)))
  { dt := ⟨F.invAbs d.x, F.invAbs d.y, F.invAbs d.z⟩
    current_chunk := chunk_id origin_cube
    chunk_inc_dir := (xpart.1 * 16, zpart.1 * 16)
    last_cube := origin_cube
    current_cube := origin_cube
    origin_cube_i32 := origin_cube
    cube_inc_dir := ⟨xpart.1, ypart.1, zpart.1⟩
    t_next_cube := ⟨xpart.2, ypart.2, zpart.2⟩
    max_radius_i32 := ⌈max_radius⌉
    path := [] }

/-- The `chunk_change` helper of `move_to_next_cube` (`world.rs:388-390`). -/
def chunk_change (dir : Int) (val : Int) : Bool :=
  (dir = -1 && val.emod 16 = 15) || (dir = 1 && val.emod 16 = 0)

/-- The squared-distance radius check at the end of `move_to_next_cube`. -/
def radiusCheck (st : BlockRayTracer) : BlockRayTracer × Option TraceChunkResult :=
  if st.max_radius_i32 * st.max_radius_i32 < (st.current_cube.sub st.origin_cube_i32).mag2 then
    (st, some .ExceededRadius)
  else (st, none)

/-- `BlockRayTracer::move_to_next_cube` (`world.rs:387-435`): advance the
axis chosen by the comparison chain `x<y`, `x<z`, `y<z`; on an X/Z chunk
crossing return `ChunkChange` early (skipping the radius check); otherwise
check the squared radius. -/
def move_to_next_cube (st : BlockRayTracer) : BlockRayTracer × Option TraceChunkResult :=
  let st := { st with last_cube := st.current_cube }
  if F.lt st.t_next_cube.x st.t_next_cube.y then
    if F.lt st.t_next_cube.x st.t_next_cube.z then
      let st := { st with
        current_cube := { st.current_cube with x := st.current_cube.x + st.cube_inc_dir.x },
        t_next_cube := { st.t_next_cube with x := F.add st.t_next_cube.x st.dt.x } }
      if chunk_change st.cube_inc_dir.x st.current_cube.x then
        (st, some (.ChunkChange (st.current_chunk.1 + st.chunk_inc_dir.1, st.current_chunk.2)))
      else radiusCheck st
    else
      let st := { st with
        current_cube := { st.current_cube with z := st.current_cube.z + st.cube_inc_dir.z },
        t_next_cube := { st.t_next_cube with z := F.add st.t_next_cube.z st.dt.z } }
      if chunk_change st.cube_inc_dir.z st.current_cube.z then
        (st, some (.ChunkChange (st.current_chunk.1, st.current_chunk.2 + st.chunk_inc_dir.2)))
      else radiusCheck st
  else if F.lt st.t_next_cube.y st.t_next_cube.z then
    let st := { st with
      current_cube := { st.current_cube with y := st.current_cube.y + st.cube_inc_dir.y },
      t_next_cube := { st.t_next_cube with y := F.add st.t_next_cube.y st.dt.y } }
    radiusCheck st
  else
    let st := { st with
      current_cube := { st.current_cube with z := st.current_cube.z + st.cube_inc_dir.z },
      t_next_cube := { st.t_next_cube with z := F.add st.t_next_cube.z st.dt.z } }
    if chunk_change st.cube_inc_dir.z st.current_cube.z then
      (st, some (.ChunkChange (st.current_chunk.1, st.current_chunk.2 + st.chunk_inc_dir.2)))
    else radiusCheck st

/-- `BlockRayTracer::trace_chunk` (`world.rs:438-459`), with fuel. -/
def trace_chunk (chunk : Chunk) : Nat → BlockRayTracer →
    Option (BlockRayTracer × TraceChunkResult)
  | 0, _ => none
  | fuel + 1, st =>
    let st := { st with path := st.path ++ [st.current_cube] }
    let hit :=
      match chunk.in_chunk_pos st.current_cube with
      | some cp => (chunk.cubes (chunk_pos_to_index cp).toNat).isSome
      | none => false
    if hit then
      some (st, .BlockFound st.current_cube (st.last_cube.sub st.current_cube))
    else
      match move_to_next_cube st with
      | (st', some r) => some (st', r)
      | (st', none) => trace_chunk chunk fuel st'

/-- `BlockRayTracer::trace_no_chunk` (`world.rs:461-471`), with fuel. -/
def trace_no_chunk : Nat → BlockRayTracer → Option (BlockRayTracer × TraceChunkResult)
  | 0, _ => none
  | fuel + 1, st =>
    let st := { st with path := st.path ++ [st.current_cube] }
    match move_to_next_cube st with
    | (st', some r) => some (st', r)
    | (st', none) => trace_no_chunk fuel st'

/-- `BlockRayTracer::run` (`world.rs:473-496`), with fuel. -/
def runTracer (w : World) : Nat → BlockRayTracer → Option TraceResult
  | 0, _ => none
  | fuel + 1, st =>
    let step :=
      match mapLookup w.chunks st.current_chunk with
      | some chunk => trace_chunk chunk (fuel + 1) st
      | none => trace_no_chunk (fuel + 1) st
    match step with
    | none => none
    | some (st', .BlockFound cube dir) => some ⟨st'.path, some ⟨cube, dir⟩⟩
    | some (st', .ExceededRadius) => some ⟨st'.path, none⟩
    | some (st', .ChunkChange nc) => runTracer w fuel { st' with current_chunk := nc }

/-- `World::cube_looking_at` (`world.rs:628-637`). -/
def World.cube_looking_at (w : World) (origin direction : Pos3q) (max_radius : ℚ)
    (fuel : Nat) : Option TraceResult :=
  runTracer w fuel (BlockRayTracer.new origin direction max_radius)

/-! ## Axis-selection vocabulary for the traversal step -/

/-- A traversal axis. -/
inductive Axis where
  | X | Y | Z
deriving DecidableEq

/-- Per-axis component of an `F3`. -/
def F3.getA (t : F3) : Axis → F
  | .X => t.x
  | .Y => t.y
  | .Z => t.z

/-- Per-axis component of an integer position. -/
def Pos3.getA (p : Pos3) : Axis → Int
  | .X => p.x
  | .Y => p.y
  | .Z => p.z

/-- Add a delta on one axis of an integer position. -/
def Pos3.addA (p : Pos3) (a : Axis) (d : Int) : Pos3 :=
  match a with
  | .X => { p with x := p.x + d }
  | .Y => { p with y := p.y + d }
  | .Z => { p with z := p.z + d }

/-- Replace one axis of an `F3`. -/
def F3.setA (t : F3) (a : Axis) (v : F) : F3 :=
  match a with
  | .X => { t with x := v }
  | .Y => { t with y := v }
  | .Z => { t with z := v }

/-- Modelled from the spec's words (claim C6): the axis with the smallest
remaining distance to its next boundary, with tie-break order X, then Z,
then Y.  Used only to compare the claimed selection rule against the
code's. -/
def claimedAxisXZY (t : F3) : Axis :=
  if F.le t.x t.y && F.le t.x t.z then .X
  else if F.le t.z t.x && F.le t.z t.y then .Z
  else .Y

/-- The axis with the smallest remaining distance, tie-break priority Z,
then Y, then X — what the code's comparison chain actually selects. -/
def prioAxisZYX (t : F3) : Axis :=
  if F.le t.z t.x && F.le t.z t.y then .Z
  else if F.le t.y t.x then .Y
  else .X

/-! ## Concrete scenario values used by the claims -/

/-- A sample color used by the concrete scenarios. -/
def sampleColor : Color := ⟨1, 0, 0, 1⟩

/-- A traversal state whose remaining distances tie on X and Y
(`t_next = (1, 1, 5)`), used to refute the claimed tie-break order. -/
def tieState : BlockRayTracer :=
  { dt := ⟨.fin 1, .fin 1, .fin 1⟩
    current_chunk := (0, 0)
    chunk_inc_dir := (16, 16)
    last_cube := ⟨5, 5, 5⟩
    current_cube := ⟨5, 5, 5⟩
    origin_cube_i32 := ⟨5, 5, 5⟩
    cube_inc_dir := ⟨1, 1, 1⟩
    t_next_cube := ⟨.fin 1, .fin 1, .fin 5⟩
    max_radius_i32 := 100
    path := [] }

/-- A concrete traversal state whose Y axis has `t_next = +∞` and step 0. -/
def yFrozenState : BlockRayTracer :=
  { dt := ⟨.fin 1, .inf, .inf⟩
    current_chunk := (0, 0)
    chunk_inc_dir := (16, 0)
    last_cube := ⟨1, 1, 1⟩
    current_cube := ⟨1, 1, 1⟩
    origin_cube_i32 := ⟨1, 1, 1⟩
    cube_inc_dir := ⟨1, 0, 0⟩
    t_next_cube := ⟨.fin 1, .inf, .inf⟩
    max_radius_i32 := 3
    path := [] }

/-- World position of an in-chunk position. -/
def Chunk.worldPos (c : Chunk) (p : Pos3) : Pos3 :=
  ⟨p.x + c.start.1, p.y, p.z + c.start.2⟩

/-- `visibleAt c p`: the cell at in-extent position `p` is occupied and its
mask is not `[true; 6]` — exactly the condition under which the rebuild
emits an instance for it. -/
def Chunk.visibleAt (c : Chunk) (p : Pos3) : Bool :=
  match c.cubes (chunk_pos_to_index p).toNat with
  | some cube => decide (cube.sides_present ≠ all6true)
  | none => false

/-- The chunk used by the C3 witness: a fresh chunk with one cube at
`(3,4,5)`. -/
def c3chunk : Chunk :=
  ((Chunk.new (0, 0)).push_cube ⟨⟨3, 4, 5⟩, sampleColor⟩).getD (Chunk.new (0, 0))

/-- The chunk of the C8 failing input: six cubes surrounding the boundary
cell `(2,255,2)` — including `(2,0,3)`, whose array index 12290 is what the
out-of-extent TOP "neighbor" `(2,256,2)` aliases to under the line-110 bug
— and then the cell itself. -/
def c8chunk : Option Chunk :=
  (Chunk.new (0, 0)).push_cube ⟨⟨2, 0, 3⟩, sampleColor⟩ >>= fun c =>
  c.push_cube ⟨⟨2, 254, 2⟩, sampleColor⟩ >>= fun c =>
  c.push_cube ⟨⟨1, 255, 2⟩, sampleColor⟩ >>= fun c =>
  c.push_cube ⟨⟨3, 255, 2⟩, sampleColor⟩ >>= fun c =>
  c.push_cube ⟨⟨2, 255, 1⟩, sampleColor⟩ >>= fun c =>
  c.push_cube ⟨⟨2, 255, 3⟩, sampleColor⟩ >>= fun c =>
  c.push_cube ⟨⟨2, 255, 2⟩, sampleColor⟩

/-- A world with a resident chunk at key `(0,0)`, for the C9 witness. -/
def w9 : World := ⟨[((0, 0), Chunk.new (0, 0))], true⟩

/-- The world whose only occupied voxel is at `(3,0,0)`. -/
def c4world : Option World := World.new.push_cube ⟨⟨3, 0, 0⟩, sampleColor⟩

/-- The tracer state `BlockRayTracer::new` builds for origin
`(0.5,0.5,0.5)` and direction `(1,0,0)`, with the radius kept symbolic:
`f32::round` sends the origin to start cell `(1,1,1)`, the Y and Z axes are
frozen (`step 0`, `t_next = +∞`), and X advances with `t_next = 1`. -/
def c4state (c : Int) : BlockRayTracer :=
  { dt := ⟨.fin 1, .inf, .inf⟩
    current_chunk := (0, 0)
    chunk_inc_dir := (16, 0)
    last_cube := ⟨1, 1, 1⟩
    current_cube := ⟨1, 1, 1⟩
    origin_cube_i32 := ⟨1, 1, 1⟩
    cube_inc_dir := ⟨1, 0, 0⟩
    t_next_cube := ⟨.fin 1, .inf, .inf⟩
    max_radius_i32 := c
    path := [] }

/-! ## Small facts about `F` and the traversal step -/

theorem F.lt_inf_left (b : F) : F.lt .inf b = false := by
  cases b <;> rfl

theorem F.add_inf_left (b : F) : F.add .inf b = .inf := by
  cases b <;> rfl

theorem F.le_refl (a : F) : F.le a a = true := by
  cases a <;> simp [F.le]

theorem F.le_of_lt {a b : F} (h : F.lt a b = true) : F.le a b = true := by
  cases a <;> cases b <;> simp_all [F.lt, F.le]
  exact h.le

theorem F.le_of_not_lt {a b : F} (h : F.lt a b = false) : F.le b a = true := by
  cases a <;> cases b <;> simp_all [F.lt, F.le]

theorem F.le_false_of_lt {a b : F} (h : F.lt a b = true) : F.le b a = false := by
  cases a <;> cases b <;> simp_all [F.lt, F.le]

theorem F.le_trans {a b c : F} (h1 : F.le a b = true) (h2 : F.le b c = true) :
    F.le a c = true := by
  cases a <;> cases b <;> cases c <;> simp_all [F.le]
  exact h1.trans h2

theorem F.le_of_le_of_lt {a b c : F} (h1 : F.le a b = true) (h2 : F.lt b c = true) :
    F.le a c = true :=
  F.le_trans h1 (F.le_of_lt h2)

theorem radiusCheck_fst (st : BlockRayTracer) : (radiusCheck st).1 = st := by
  unfold radiusCheck; split <;> rfl

/-! ## Claims -/

/-- C1: the `sides_present` consistency invariant is broken by the code.
`update_surroundings` checks `cube_pos.x < 256` (source line 110) where the
extent check needs `cube_pos.y < 256`, so for a cell at local `y = 255` the
TOP "neighbor" `(x, 256, z)` passes the check and indexes cell
`(x, 0, z+1)`.  Concretely: push `(0,0,1)` then `(0,255,0)` into a fresh
chunk; index 4080 is `(0,255,0)` and index 4096 is `(0,0,1)`.  The claim
requires the TOP bit of `(0,255,0)` to be false (its neighbor `(0,256,0)`
is outside the extent) and the BOTTOM bit of `(0,0,1)` to be false (its
neighbor `(0,-1,1)` is outside), but both end up true; and pushing at
`(0,255,15)` indexes 65536 out of bounds and panics (returns no chunk). -/
theorem C1_sides_mask_bug :
    (((Chunk.new (0, 0)).push_cube ⟨⟨0, 0, 1⟩, sampleColor⟩ >>= fun c =>
        c.push_cube ⟨⟨0, 255, 0⟩, sampleColor⟩).map fun c =>
          ((c.cubes 4080).map fun cb => cb.sides_present[0]?,
           (c.cubes 4096).map fun cb => cb.sides_present[1]?))
      = some (some (some true), some (some true)) ∧
    ((Chunk.new (0, 0)).push_cube ⟨⟨0, 255, 15⟩, sampleColor⟩).isSome = false := by
  with_unfolding_all decide

/-- C2 counterexample: the claim quantifies over *every* prior chunk state,
but `place(P)` overwrites an occupied cell, so when P was already occupied
a `place(P); remove(P)` pair ends with P unoccupied — different from the
prior state.  Concrete input: the chunk obtained by pushing `(5,5,5)` into
a fresh chunk, then `place (5,5,5); remove (5,5,5)`. -/
theorem C2_counterexample :
    (((Chunk.new (0, 0)).push_cube ⟨⟨5, 5, 5⟩, sampleColor⟩).map fun c =>
        (c.cubes (chunk_pos_to_index ⟨5, 5, 5⟩).toNat).isSome) = some true ∧
    (((Chunk.new (0, 0)).push_cube ⟨⟨5, 5, 5⟩, sampleColor⟩ >>= fun c =>
        c.push_cube ⟨⟨5, 5, 5⟩, sampleColor⟩ >>= fun c' =>
        c'.remove_cube ⟨5, 5, 5⟩).map fun c =>
        (c.cubes (chunk_pos_to_index ⟨5, 5, 5⟩).toNat).isSome) = some false := by
  with_unfolding_all decide

/-- C4 counterexample: in the world whose only voxel is at `(3,0,0)`, the
ray from `(0.5,0.5,0.5)` with direction `(1,0,0)` and `max_radius = 3` (≥ 3)
returns `found = None`, not `Some (3,0,0)`: `f32::round` sends the origin to
start cell `(1,1,1)`, so the traversal walks `(k,1,1)` and never visits
`(3,0,0)`. -/
theorem C4_counterexample :
    ((World.new.push_cube ⟨⟨3, 0, 0⟩, sampleColor⟩).bind fun w =>
        w.cube_looking_at ⟨1 / 2, 1 / 2, 1 / 2⟩ ⟨1, 0, 0⟩ 3 64).map
          (fun tr => (tr.path, tr.result_cube))
      = some ([⟨1, 1, 1⟩, ⟨2, 1, 1⟩, ⟨3, 1, 1⟩, ⟨4, 1, 1⟩], none) := by
  with_unfolding_all decide

/-- C5: with resident chunks at keys `(0,0)` and `(16,0)` and a voxel at
`(16,0,0)`, the ray from `(10,0,0)` with direction `(1,0,0)` and radius 10
crosses the chunk boundary at x = 16, switches to chunk key `(16,0)`,
re-checks the already-advanced cell there and finds `(16,0,0)` with
incoming direction `(-1,0,0)`.  The path shows the handoff: `(15,0,0)` is
the last cell checked in chunk `(0,0)` and `(16,0,0)` the first checked in
chunk `(16,0)`. -/
theorem C5_chunk_handoff :
    ((World.new.create_chunk 0 0 0 sampleColor).bind fun wp =>
        wp.1.push_cube ⟨⟨16, 0, 0⟩, sampleColor⟩ >>= fun w =>
        w.cube_looking_at ⟨10, 0, 0⟩ ⟨1, 0, 0⟩ 10 64).map
          (fun tr => (tr.path, tr.result_cube))
      = some ([⟨10, 0, 0⟩, ⟨11, 0, 0⟩, ⟨12, 0, 0⟩, ⟨13, 0, 0⟩, ⟨14, 0, 0⟩,
               ⟨15, 0, 0⟩, ⟨16, 0, 0⟩],
              some ⟨⟨16, 0, 0⟩, ⟨-1, 0, 0⟩⟩) := by
  with_unfolding_all decide

/-- C6 counterexample: at `t_next = (1, 1, 5)` the claimed rule (smallest
distance, tie-break X then Z then Y) selects X, but the code's comparison
chain (`x<y` fails on the tie, `y<z` holds) advances Y: the cell moves from
`(5,5,5)` to `(5,6,5)` with x unchanged. -/
theorem C6_counterexample :
    claimedAxisXZY ⟨.fin 1, .fin 1, .fin 5⟩ = Axis.X ∧
    (move_to_next_cube tieState).1.current_cube = ⟨5, 6, 5⟩ := by
  with_unfolding_all decide

/-- C10: `World::remove_cube` begins with `assert!(pos.y >= 0)`, so for any
world state and any position with `pos.y < 0` it panics at entry, before
any chunk lookup or mutation (modelled as `none` returned by the guard that
precedes the lookup). -/
theorem C10_remove_cube_asserts (w : World) (pos : Pos3) (h : pos.y < 0) :
    w.remove_cube pos = none := by
  unfold World.remove_cube
  rw [if_pos h]

/-- Witness for C10 at the empty world and position `(0,-1,0)`. -/
theorem C10_witness :
    ((-1 : Int) < 0) ∧ World.remove_cube ⟨[], false⟩ ⟨0, -1, 0⟩ = none :=
  ⟨by decide, C10_remove_cube_asserts ⟨[], false⟩ ⟨0, -1, 0⟩ (by decide)⟩

/-- C6 amended: in every traversal step the code advances an axis with the
smallest remaining distance to its next boundary, but the tie-break
priority is Z, then Y, then X (from the strict comparisons `x<y`, `x<z`,
`y<z`: on an X=Y tie Y wins over X, and on X=Z or Y=Z ties Z wins).  The
advanced axis gets its cell coordinate incremented by its step and its
remaining distance increased by its per-step distance. -/
theorem C6_amended_axis_priority (st : BlockRayTracer) :
    (move_to_next_cube st).1.current_cube =
        st.current_cube.addA (prioAxisZYX st.t_next_cube)
          (st.cube_inc_dir.getA (prioAxisZYX st.t_next_cube)) ∧
    (move_to_next_cube st).1.t_next_cube =
        st.t_next_cube.setA (prioAxisZYX st.t_next_cube)
          (F.add (st.t_next_cube.getA (prioAxisZYX st.t_next_cube))
                 (st.dt.getA (prioAxisZYX st.t_next_cube))) ∧
    (∀ b, F.le (st.t_next_cube.getA (prioAxisZYX st.t_next_cube))
              (st.t_next_cube.getA b) = true) := by
  cases hxy : F.lt st.t_next_cube.x st.t_next_cube.y with
  | true =>
    cases hxz : F.lt st.t_next_cube.x st.t_next_cube.z with
    | true =>
      have h1 : F.le st.t_next_cube.z st.t_next_cube.x = false := F.le_false_of_lt hxz
      have h2 : F.le st.t_next_cube.y st.t_next_cube.x = false := F.le_false_of_lt hxy
      have hprio : prioAxisZYX st.t_next_cube = .X := by
        simp [prioAxisZYX, h1, h2]
      rw [hprio]
      refine ⟨?_, ?_, ?_⟩
      · simp only [move_to_next_cube, hxy, hxz, if_true]
        split
        · simp [Pos3.addA, Pos3.getA]
        · rw [radiusCheck_fst]; simp [Pos3.addA, Pos3.getA]
      · simp only [move_to_next_cube, hxy, hxz, if_true]
        split
        · simp [F3.setA, F3.getA]
        · rw [radiusCheck_fst]; simp [F3.setA, F3.getA]
      · intro b
        cases b
        · exact F.le_refl _
        · exact F.le_of_lt hxy
        · exact F.le_of_lt hxz
    | false =>
      have h1 : F.le st.t_next_cube.z st.t_next_cube.x = true := F.le_of_not_lt hxz
      have h2 : F.le st.t_next_cube.z st.t_next_cube.y = true :=
        F.le_of_le_of_lt h1 hxy
      have hprio : prioAxisZYX st.t_next_cube = .Z := by
        simp [prioAxisZYX, h1, h2]
      rw [hprio]
      refine ⟨?_, ?_, ?_⟩
      · simp only [move_to_next_cube, hxy, hxz, if_true, Bool.false_eq_true, if_false]
        split
        · simp [Pos3.addA, Pos3.getA]
        · rw [radiusCheck_fst]; simp [Pos3.addA, Pos3.getA]
      · simp only [move_to_next_cube, hxy, hxz, if_true, Bool.false_eq_true, if_false]
        split
        · simp [F3.setA, F3.getA]
        · rw [radiusCheck_fst]; simp [F3.setA, F3.getA]
      · intro b
        cases b
        · exact h1
        · exact h2
        · exact F.le_refl _
  | false =>
    cases hyz : F.lt st.t_next_cube.y st.t_next_cube.z with
    | true =>
      have h1 : F.le st.t_next_cube.z st.t_next_cube.y = false := F.le_false_of_lt hyz
      have h2 : F.le st.t_next_cube.y st.t_next_cube.x = true := F.le_of_not_lt hxy
      have hprio : prioAxisZYX st.t_next_cube = .Y := by
        simp [prioAxisZYX, h1, h2]
      rw [hprio]
      refine ⟨?_, ?_, ?_⟩
      · simp only [move_to_next_cube, hxy, hyz, Bool.false_eq_true, if_false, if_true]
        simp [Pos3.addA, Pos3.getA, radiusCheck_fst]
      · simp only [move_to_next_cube, hxy, hyz, Bool.false_eq_true, if_false, if_true]
        simp [F3.setA, F3.getA, radiusCheck_fst]
      · intro b
        cases b
        · exact h2
        · exact F.le_refl _
        · exact F.le_of_lt hyz
    | false =>
      have h1 : F.le st.t_next_cube.z st.t_next_cube.y = true := F.le_of_not_lt hyz
      have h2 : F.le st.t_next_cube.y st.t_next_cube.x = true := F.le_of_not_lt hxy
      have h3 : F.le st.t_next_cube.z st.t_next_cube.x = true := F.le_trans h1 h2
      have hprio : prioAxisZYX st.t_next_cube = .Z := by
        simp [prioAxisZYX, h1, h3]
      rw [hprio]
      refine ⟨?_, ?_, ?_⟩
      · simp only [move_to_next_cube, hxy, hyz, Bool.false_eq_true, if_false]
        split
        · simp [Pos3.addA, Pos3.getA]
        · rw [radiusCheck_fst]; simp [Pos3.addA, Pos3.getA]
      · simp only [move_to_next_cube, hxy, hyz, Bool.false_eq_true, if_false]
        split
        · simp [F3.setA, F3.getA]
        · rw [radiusCheck_fst]; simp [F3.setA, F3.getA]
      · intro b
        cases b
        · exact h3
        · exact h1
        · exact F.le_refl _

/-- C7: a direction component that is exactly 0 gives that axis a step of
0 and a time-to-next-boundary of `+∞` (and a per-step distance of `+∞`,
via `1.0 / 0.0 = +∞` — no divide-by-zero trap), and a traversal step never
changes the current cell's coordinate on an axis whose time-to-next is
`+∞` and whose step is 0 — the `+∞` and step-0 state is preserved, so by
induction the traversal never advances that axis. -/
theorem C7_zero_direction_component :
    (∀ (o d : Pos3q) (r : ℚ), d.x = 0 →
        (BlockRayTracer.new o d r).cube_inc_dir.x = 0 ∧
        (BlockRayTracer.new o d r).dt.x = F.inf ∧
        (BlockRayTracer.new o d r).t_next_cube.x = F.inf) ∧
    (∀ (o d : Pos3q) (r : ℚ), d.y = 0 →
        (BlockRayTracer.new o d r).cube_inc_dir.y = 0 ∧
        (BlockRayTracer.new o d r).dt.y = F.inf ∧
        (BlockRayTracer.new o d r).t_next_cube.y = F.inf) ∧
    (∀ (o d : Pos3q) (r : ℚ), d.z = 0 →
        (BlockRayTracer.new o d r).cube_inc_dir.z = 0 ∧
        (BlockRayTracer.new o d r).dt.z = F.inf ∧
        (BlockRayTracer.new o d r).t_next_cube.z = F.inf) ∧
    (∀ st : BlockRayTracer, st.t_next_cube.x = F.inf → st.cube_inc_dir.x = 0 →
        (move_to_next_cube st).1.current_cube.x = st.current_cube.x ∧
        (move_to_next_cube st).1.t_next_cube.x = F.inf ∧
        (move_to_next_cube st).1.cube_inc_dir.x = 0) ∧
    (∀ st : BlockRayTracer, st.t_next_cube.y = F.inf → st.cube_inc_dir.y = 0 →
        (move_to_next_cube st).1.current_cube.y = st.current_cube.y ∧
        (move_to_next_cube st).1.t_next_cube.y = F.inf ∧
        (move_to_next_cube st).1.cube_inc_dir.y = 0) ∧
    (∀ st : BlockRayTracer, st.t_next_cube.z = F.inf → st.cube_inc_dir.z = 0 →
        (move_to_next_cube st).1.current_cube.z = st.current_cube.z ∧
        (move_to_next_cube st).1.t_next_cube.z = F.inf ∧
        (move_to_next_cube st).1.cube_inc_dir.z = 0) := by
  refine ⟨?_, ?_, ?_, ?_, ?_, ?_⟩
  · intro o d r h
    simp [BlockRayTracer.new, Pos3q.normalize, h, zero_div, F.invAbs]
  · intro o d r h
    simp [BlockRayTracer.new, Pos3q.normalize, h, zero_div, F.invAbs]
  · intro o d r h
    simp [BlockRayTracer.new, Pos3q.normalize, h, zero_div, F.invAbs]
  · intro st h hinc
    simp only [move_to_next_cube, radiusCheck, h]
    repeat' split
    all_goals simp_all [F.lt_inf_left, F.add_inf_left]
  · intro st h hinc
    simp only [move_to_next_cube, radiusCheck, h]
    repeat' split
    all_goals simp_all [F.lt_inf_left, F.add_inf_left]
  · intro st h hinc
    simp only [move_to_next_cube, radiusCheck, h]
    repeat' split
    all_goals simp_all [F.lt_inf_left, F.add_inf_left]

/-- Witness for C7: the direction `(1,0,0)` has `y`-component 0; `new`
assigns step 0 and `+∞` on Y, and a step from `yFrozenState` leaves the
Y coordinate, the `+∞` and the 0 step unchanged. -/
theorem C7_witness :
    ((⟨1, 0, 0⟩ : Pos3q).y = 0) ∧
    ((BlockRayTracer.new ⟨1 / 2, 1 / 2, 1 / 2⟩ ⟨1, 0, 0⟩ 3).cube_inc_dir.y = 0 ∧
     (BlockRayTracer.new ⟨1 / 2, 1 / 2, 1 / 2⟩ ⟨1, 0, 0⟩ 3).dt.y = F.inf ∧
     (BlockRayTracer.new ⟨1 / 2, 1 / 2, 1 / 2⟩ ⟨1, 0, 0⟩ 3).t_next_cube.y = F.inf) ∧
    (yFrozenState.t_next_cube.y = F.inf) ∧ (yFrozenState.cube_inc_dir.y = 0) ∧
    ((move_to_next_cube yFrozenState).1.current_cube.y = yFrozenState.current_cube.y ∧
     (move_to_next_cube yFrozenState).1.t_next_cube.y = F.inf ∧
     (move_to_next_cube yFrozenState).1.cube_inc_dir.y = 0) :=
  ⟨rfl,
   C7_zero_direction_component.2.1 ⟨1 / 2, 1 / 2, 1 / 2⟩ ⟨1, 0, 0⟩ 3 rfl,
   rfl, rfl,
   C7_zero_direction_component.2.2.2.2.1 yFrozenState rfl rfl⟩

/-! ## Index arithmetic and mesh characterization -/

theorem chunk_pos_to_index_bounds (p : Pos3) (hp : inExtent p) :
    0 ≤ chunk_pos_to_index p ∧ chunk_pos_to_index p < 16 * 256 * 16 := by
  obtain ⟨h1, h2, h3, h4, h5, h6⟩ := hp
  simp only [chunk_pos_to_index, Y_STRIDE, Z_STRIDE]
  omega

theorem index_roundtrip (p : Pos3) (hp : inExtent p) :
    index_to_chunk_pos (chunk_pos_to_index p).toNat = p := by
  rcases p with ⟨x, y, z⟩
  obtain ⟨h1, h2, h3, h4, h5, h6⟩ := hp
  dsimp only at h1 h2 h3 h4 h5 h6
  simp only [index_to_chunk_pos, chunk_pos_to_index, Y_STRIDE, Z_STRIDE, Pos3.mk.injEq]
  refine ⟨?_, ?_, ?_⟩ <;> omega

theorem index_roundtrip' (i : Nat) (h : i < 16 * 256 * 16) :
    (chunk_pos_to_index (index_to_chunk_pos i)).toNat = i ∧
      inExtent (index_to_chunk_pos i) := by
  simp only [index_to_chunk_pos, chunk_pos_to_index, Y_STRIDE, Z_STRIDE, inExtent]
  refine ⟨?_, ?_⟩ <;> omega

theorem worldPos_inj (c : Chunk) (a b : Pos3) (h : c.worldPos a = c.worldPos b) :
    a = b := by
  rcases a with ⟨ax, ay, az⟩
  rcases b with ⟨bx, by', bz⟩
  simp only [Chunk.worldPos, Pos3.mk.injEq] at h ⊢
  omega

theorem worldPosOfIndex_eq (c : Chunk) (i : Nat) :
    c.worldPosOfIndex i = c.worldPos (index_to_chunk_pos i) := rfl

theorem countP_filterMap_list {α β : Type} (f : α → Option β) (q : β → Bool)
    (l : List α) :
    (l.filterMap f).countP q = l.countP fun a => ((f a).map q).getD false := by
  induction l with
  | nil => rfl
  | cons a t ih =>
      cases hfa : f a <;>
        simp [List.filterMap_cons, hfa, List.countP_cons, ih]

theorem countP_range_single (g : Nat → Bool) (k n : Nat)
    (hg : ∀ j, j < n → g j = true → j = k) :
    (List.range n).countP g = if k < n ∧ g k = true then 1 else 0 := by
  induction n with
  | zero => simp
  | succ n ih =>
      rw [List.range_succ, List.countP_append]
      have ihn := ih fun j hj hgj => hg j (Nat.lt_succ_of_lt hj) hgj
      cases hgn : g n with
      | true =>
          have hk : n = k := hg n (Nat.lt_succ_self n) hgn
          subst hk
          have hz : (List.range n).countP g = 0 := by
            apply List.countP_eq_zero.mpr
            intro j hj
            intro hgj
            exact absurd (hg j (Nat.lt_succ_of_lt (List.mem_range.mp hj)) hgj)
              (Nat.ne_of_lt (List.mem_range.mp hj))
          simp [hz, hgn, Nat.lt_succ_self]
      | false =>
          rw [ihn]
          by_cases hk : k < n
          · simp [hk, Nat.lt_succ_of_lt hk, List.countP_cons, hgn]
          · have : ¬ (k < n + 1 ∧ g k = true) := by
              rintro ⟨hk1, hk2⟩
              have : k = n := by omega
              subst this
              simp [hgn] at hk2
            simp [hk, this, List.countP_cons, hgn]

theorem meshEntry_some {c : Chunk} {i : Nat} {inst : Cube}
    (h : c.meshEntry i = some inst) :
    inst.center = c.worldPosOfIndex i ∧
      ∃ cube, c.cubes i = some cube ∧ cube.sides_present ≠ all6true ∧
        inst.color = cube.color := by
  unfold Chunk.meshEntry at h
  cases hc : c.cubes i with
  | none => rw [hc] at h; exact absurd h (by simp)
  | some cube =>
      rw [hc] at h
      dsimp only at h
      by_cases hm : cube.sides_present = all6true
      · rw [if_neg (by simp [hm])] at h
        exact absurd h (by simp)
      · rw [if_pos hm] at h
        cases h
        exact ⟨rfl, cube, rfl, hm, rfl⟩

theorem mesh_rebuild_countP (c : Chunk) (p : Pos3) (hp : inExtent p) :
    c.mesh_rebuild.countP (fun inst => decide (inst.center = c.worldPos p)) =
      if c.visibleAt p then 1 else 0 := by
  obtain ⟨hge, hlt⟩ := chunk_pos_to_index_bounds p hp
  have huniq : ∀ j, j < 16 * 256 * 16 →
      ((c.meshEntry j).map
        (fun inst => decide (inst.center = c.worldPos p))).getD false = true →
      j = (chunk_pos_to_index p).toNat := by
    intro j hj hgj
    cases hfj : c.meshEntry j with
    | none => rw [hfj] at hgj; exact absurd hgj (by simp)
    | some inst =>
        rw [hfj] at hgj
        simp only [Option.map_some', Option.getD_some, decide_eq_true_eq] at hgj
        obtain ⟨hcen, -⟩ := meshEntry_some hfj
        have hpj : index_to_chunk_pos j = p := by
          apply worldPos_inj c
          rw [← worldPosOfIndex_eq, ← hcen]
          exact hgj
        have hjk := (index_roundtrip' j hj).1
        rw [hpj] at hjk
        exact hjk.symm
  rw [Chunk.mesh_rebuild, countP_filterMap_list,
      countP_range_single _ (chunk_pos_to_index p).toNat _ huniq]
  have hk : (chunk_pos_to_index p).toNat < 16 * 256 * 16 := by omega
  have hgk : ((c.meshEntry (chunk_pos_to_index p).toNat).map
      (fun inst => decide (inst.center = c.worldPos p))).getD false =
        c.visibleAt p := by
    unfold Chunk.meshEntry Chunk.visibleAt
    cases hc : c.cubes (chunk_pos_to_index p).toNat with
    | none => rfl
    | some cube =>
        by_cases hm : cube.sides_present = all6true
        · simp [hm]
        · simp [hm, worldPosOfIndex_eq, index_roundtrip p hp]
  rw [hgk]
  cases hv : c.visibleAt p <;> simp [hk]

theorem mesh_rebuild_mem (c : Chunk) (p : Pos3) (hp : inExtent p)
    (cube : ChunkCube)
    (hc : c.cubes (chunk_pos_to_index p).toNat = some cube)
    (hmask : cube.sides_present ≠ all6true) :
    (⟨c.worldPos p, cube.color⟩ : Cube) ∈ c.mesh_rebuild := by
  obtain ⟨hge, hlt⟩ := chunk_pos_to_index_bounds p hp
  rw [Chunk.mesh_rebuild]
  apply List.mem_filterMap.mpr
  refine ⟨(chunk_pos_to_index p).toNat, List.mem_range.mpr (by omega), ?_⟩
  unfold Chunk.meshEntry
  rw [hc]
  dsimp only
  rw [if_pos hmask, worldPosOfIndex_eq, index_roundtrip p hp]

theorem mesh_rebuild_not_mem (c : Chunk) (p : Pos3)
    (cube : ChunkCube)
    (hc : c.cubes (chunk_pos_to_index p).toNat = some cube)
    (hmask : cube.sides_present = all6true) :
    ∀ inst ∈ c.mesh_rebuild, inst.center ≠ c.worldPos p := by
  intro inst hmem heq
  rw [Chunk.mesh_rebuild] at hmem
  obtain ⟨j, hj, hfj⟩ := List.mem_filterMap.mp hmem
  have hjN := List.mem_range.mp hj
  obtain ⟨hcen, cube', hc', hm', -⟩ := meshEntry_some hfj
  have hpj : index_to_chunk_pos j = p := by
    apply worldPos_inj c
    rw [← worldPosOfIndex_eq, ← hcen]
    exact heq
  have hjk := (index_roundtrip' j hjN).1
  rw [hpj] at hjk
  rw [hjk] at hc
  rw [hc] at hc'
  cases hc'
  exact hm' hmask

/-- C3: when a dirty chunk rebuilds its instance list, for every in-extent
cell position `p` it emits exactly one instance whose center is `p`'s world
position — and that instance carries the cell's color — iff the cell is
occupied with a mask different from `[true; 6]`; for an occupied cell whose
mask is `[true; 6]` (fully enclosed) no emitted instance has its center. -/
theorem C3_mesh_exactly_one (c : Chunk) (p : Pos3) (hp : inExtent p) :
    (c.mesh_rebuild.countP (fun inst => decide (inst.center = c.worldPos p)) =
      if c.visibleAt p then 1 else 0) ∧
    (∀ cube, c.cubes (chunk_pos_to_index p).toNat = some cube →
      cube.sides_present ≠ all6true →
      (⟨c.worldPos p, cube.color⟩ : Cube) ∈ c.mesh_rebuild) ∧
    (∀ cube, c.cubes (chunk_pos_to_index p).toNat = some cube →
      cube.sides_present = all6true →
      ∀ inst ∈ c.mesh_rebuild, inst.center ≠ c.worldPos p) :=
  ⟨mesh_rebuild_countP c p hp,
   fun cube hc hm => mesh_rebuild_mem c p hp cube hc hm,
   fun cube hc hm => mesh_rebuild_not_mem c p cube hc hm⟩

/-- Witness for C3 at `c3chunk` and position `(3,4,5)`. -/
theorem C3_witness :
    inExtent ⟨3, 4, 5⟩ ∧
    c3chunk.mesh_rebuild.countP
        (fun inst => decide (inst.center = c3chunk.worldPos ⟨3, 4, 5⟩)) =
      if c3chunk.visibleAt ⟨3, 4, 5⟩ then 1 else 0 :=
  ⟨by decide, (C3_mesh_exactly_one c3chunk ⟨3, 4, 5⟩ (by decide)).1⟩

/-- C8: the boundary-layer cell `(2,255,2)` (local y = 255) of `c8chunk` is
occupied and reachable by place operations alone, yet its mask is
`[true; 6]` — the line-110 bug reads the aliased cell `(2,0,3)` as its TOP
neighbor — so the rebuild emits no instance for it: an occupied
chunk-boundary voxel IS culled, contradicting the claim. -/
theorem C8_boundary_voxel_culled :
    ∃ c : Chunk, c8chunk = some c ∧
      c.cubes (chunk_pos_to_index ⟨2, 255, 2⟩).toNat =
        some ⟨sampleColor, all6true⟩ ∧
      ∀ inst ∈ c.mesh_rebuild, inst.center ≠ c.worldPos ⟨2, 255, 2⟩ := by
  refine ⟨c8chunk.getD (Chunk.new (0, 0)), by with_unfolding_all rfl, ?hcube, ?_⟩
  case hcube => with_unfolding_all decide
  exact mesh_rebuild_not_mem _ ⟨2, 255, 2⟩ ⟨sampleColor, all6true⟩
    (by with_unfolding_all decide) rfl

/-! ## Success and locality of the neighbor update -/

/-- Behaviour of one neighbor-loop iteration: it succeeds whenever a
passing range check implies an in-bounds index, touches no cell other than
the neighbor's index, leaves the array unchanged when the check fails or
the neighbor is empty, sets an occupied neighbor's bit `i ^ 1` to
`cube_present`, and preserves occupancy everywhere. -/
theorem updNeighbor_spec (b : Bool) (i : Nat) (S : Pos3) (cb : Cubes)
    (pres : List Bool)
    (hsafe : inRangeBuggy S = true →
      0 ≤ chunk_pos_to_index S ∧ chunk_pos_to_index S < 16 * 256 * 16) :
    ∃ cb' pres', updNeighbor b i S (cb, pres) = some (cb', pres') ∧
      (∀ j, j ≠ (chunk_pos_to_index S).toNat → cb' j = cb j) ∧
      ((inRangeBuggy S = false ∨ cb (chunk_pos_to_index S).toNat = none) →
        cb' = cb) ∧
      (∀ other, inRangeBuggy S = true →
        cb (chunk_pos_to_index S).toNat = some other →
        cb' (chunk_pos_to_index S).toNat =
          some { other with
                 sides_present := other.sides_present.set (i ^^^ 1) b }) ∧
      (∀ j, (cb' j).isSome = (cb j).isSome) := by
  cases hR : inRangeBuggy S with
  | false =>
      refine ⟨cb, pres.set i false, ?_, fun j _ => rfl, fun _ => rfl,
        fun other hT _ => Bool.noConfusion hT, fun j => rfl⟩
      unfold updNeighbor
      rw [if_neg (by simp [hR])]
  | true =>
      cases hocc : cb (chunk_pos_to_index S).toNat with
      | none =>
          refine ⟨cb, pres.set i false, ?_, fun j _ => rfl, fun _ => rfl,
            fun other _ ho => Option.noConfusion ho,
            fun j => rfl⟩
          unfold updNeighbor
          rw [if_pos (by simp [hR]), if_pos (hsafe hR)]
          dsimp only
          rw [hocc]
      | some other =>
          refine ⟨updateAt cb (chunk_pos_to_index S).toNat
              (some { other with
                      sides_present := other.sides_present.set (i ^^^ 1) b }),
            pres.set i true, ?_, ?_, ?_, ?_, ?_⟩
          · unfold updNeighbor
            rw [if_pos (by simp [hR]), if_pos (hsafe hR)]
            dsimp only
            rw [hocc]
          · intro j hj
            unfold updateAt
            rw [if_neg hj]
          · rintro (hF | hN)
            · exact Bool.noConfusion hF
            · exact Option.noConfusion hN
          · intro other' _ ho
            have heq : other = other' := Option.some.inj ho
            subst heq
            unfold updateAt
            rw [if_pos rfl]
          · intro j
            unfold updateAt
            by_cases hj : j = (chunk_pos_to_index S).toNat
            · subst hj
              rw [if_pos rfl, hocc]
              rfl
            · rw [if_neg hj]

/-- Index bounds for the six neighbor positions of an in-extent cell that
is not in the panic corner: every neighbor that passes the buggy range
check has an in-bounds array index, provided `y ≤ 254` or `z ≤ 14`. -/
theorem aroundPos_bounds (p : Pos3) (hx1 : 0 ≤ p.x) (hx2 : p.x < 16)
    (hy1 : 0 ≤ p.y) (hy2 : p.y < 256) (hz1 : 0 ≤ p.z) (hz2 : p.z < 16)
    (hsafe : p.y ≤ 254 ∨ p.z ≤ 14) (i : Fin 6) :
    inRangeBuggy (aroundPos p i) = true →
    0 ≤ chunk_pos_to_index (aroundPos p i) ∧
      chunk_pos_to_index (aroundPos p i) < 16 * 256 * 16 := by
  fin_cases i <;>
    (intro h
     simp only [inRangeBuggy, aroundPos, Bool.and_eq_true, decide_eq_true_eq] at h
     simp only [chunk_pos_to_index, Y_STRIDE, Z_STRIDE, aroundPos]
     omega)

/-- `Chunk::update_surroundings` returns normally (no panic) at an
in-extent position outside the panic corner, and it changes neither the
start corner nor the dirty flag. -/
theorem update_surroundings_succeeds (c : Chunk) (p : Pos3) (hin : inExtent p)
    (hsafe : p.y ≤ 254 ∨ p.z ≤ 14) :
    ∃ c', c.update_surroundings p = some c' ∧ c'.start = c.start ∧
      c'.dirty = c.dirty := by
  obtain ⟨hx1, hx2, hy1, hy2, hz1, hz2⟩ := hin
  obtain ⟨hge, hlt⟩ := chunk_pos_to_index_bounds p ⟨hx1, hx2, hy1, hy2, hz1, hz2⟩
  have hb : ∀ i : Fin 6, inRangeBuggy (aroundPos p i) = true →
      0 ≤ chunk_pos_to_index (aroundPos p i) ∧
        chunk_pos_to_index (aroundPos p i) < 16 * 256 * 16 :=
    aroundPos_bounds p hx1 hx2 hy1 hy2 hz1 hz2 hsafe
  unfold Chunk.update_surroundings
  rw [if_pos ⟨hge, hlt⟩]
  dsimp only
  obtain ⟨cb1, p1, he1, -, -, -, -⟩ :=
    updNeighbor_spec ((c.cubes (chunk_pos_to_index p).toNat).isSome) 0
      (aroundPos p 0) c.cubes (List.replicate 6 false) (hb 0)
  rw [he1]
  dsimp only
  obtain ⟨cb2, p2, he2, -, -, -, -⟩ :=
    updNeighbor_spec ((c.cubes (chunk_pos_to_index p).toNat).isSome) 1
      (aroundPos p 1) cb1 p1 (hb 1)
  rw [he2]
  dsimp only
  obtain ⟨cb3, p3, he3, -, -, -, -⟩ :=
    updNeighbor_spec ((c.cubes (chunk_pos_to_index p).toNat).isSome) 2
      (aroundPos p 2) cb2 p2 (hb 2)
  rw [he3]
  dsimp only
  obtain ⟨cb4, p4, he4, -, -, -, -⟩ :=
    updNeighbor_spec ((c.cubes (chunk_pos_to_index p).toNat).isSome) 3
      (aroundPos p 3) cb3 p3 (hb 3)
  rw [he4]
  dsimp only
  obtain ⟨cb5, p5, he5, -, -, -, -⟩ :=
    updNeighbor_spec ((c.cubes (chunk_pos_to_index p).toNat).isSome) 4
      (aroundPos p 4) cb4 p4 (hb 4)
  rw [he5]
  dsimp only
  obtain ⟨cb6, p6, he6, -, -, -, -⟩ :=
    updNeighbor_spec ((c.cubes (chunk_pos_to_index p).toNat).isSome) 5
      (aroundPos p 5) cb5 p5 (hb 5)
  rw [he6]
  dsimp only
  cases cb6 (chunk_pos_to_index p).toNat <;> exact ⟨_, rfl, rfl, rfl⟩

/-- `Chunk::push_cube` succeeds and preserves the start corner whenever
the cube's position is in the chunk's footprint with local `y ≤ 254`. -/
theorem push_cube_succeeds (c : Chunk) (cube : Cube)
    (h1 : 0 ≤ cube.center.x - c.start.1) (h2 : cube.center.x - c.start.1 < 16)
    (h3 : 0 ≤ cube.center.y) (h4 : cube.center.y ≤ 254)
    (h5 : 0 ≤ cube.center.z - c.start.2) (h6 : cube.center.z - c.start.2 < 16) :
    ∃ c', c.push_cube cube = some c' ∧ c'.start = c.start := by
  have hext : inExtent (c.in_relative_chunk_pos cube.center) := by
    refine ⟨?_, ?_, ?_, ?_, ?_, ?_⟩ <;>
      simp only [Chunk.in_relative_chunk_pos] <;> omega
  have hcp : c.in_chunk_pos cube.center =
      some (c.in_relative_chunk_pos cube.center) := by
    unfold Chunk.in_chunk_pos
    rw [if_pos hext]
  unfold Chunk.push_cube
  rw [hcp]
  dsimp only
  obtain ⟨c2, hus, hst, -⟩ := update_surroundings_succeeds
    { c with
      cubes :=
        (updateAt c.cubes
          (chunk_pos_to_index (c.in_relative_chunk_pos cube.center)).toNat
          (some ⟨cube.color, List.replicate 6 false⟩)) }
    (c.in_relative_chunk_pos cube.center) hext (Or.inl h4)
  rw [hus]
  exact ⟨_, rfl, hst⟩

/-- Pushing a list of footprint-interior cubes (local `y ≤ 254`) never
panics and preserves the start corner. -/
theorem pushList_succeeds (start : Int × Int) (l : List Cube) :
    ∀ c : Chunk, c.start = start →
    (∀ cube ∈ l, 0 ≤ cube.center.x - start.1 ∧ cube.center.x - start.1 < 16 ∧
        0 ≤ cube.center.y ∧ cube.center.y ≤ 254 ∧
        0 ≤ cube.center.z - start.2 ∧ cube.center.z - start.2 < 16) →
    ∃ c', pushList c l = some c' ∧ c'.start = start := by
  induction l with
  | nil => intro c hs _; exact ⟨c, rfl, hs⟩
  | cons cube rest ih =>
      intro c hs hall
      obtain ⟨h1, h2, h3, h4, h5, h6⟩ := hall cube (List.mem_cons_self cube rest)
      rw [← hs] at h1 h2 h5 h6
      obtain ⟨c1, hp, hs1⟩ := push_cube_succeeds c cube h1 h2 h3 h4 h5 h6
      obtain ⟨c', hrest, hs'⟩ := ih c1 (hs1.trans hs)
        (fun cb hm => hall cb (List.mem_cons_of_mem cube hm))
      refine ⟨c', ?_, hs'⟩
      unfold pushList
      rw [hp]
      exact hrest

/-- Every cube of a `create_chunk` column of height `h ≤ 255` lies in the
footprint of the chunk starting at `(sx, sz)` with local `y ≤ 254`. -/
theorem columnCubes_mem (sx : Int) (h : Nat) (sz : Int) (color : Color)
    (hh : h ≤ 255) :
    ∀ cube ∈ columnCubes sx h sz color,
      0 ≤ cube.center.x - sx ∧ cube.center.x - sx < 16 ∧
      0 ≤ cube.center.y ∧ cube.center.y ≤ 254 ∧
      0 ≤ cube.center.z - sz ∧ cube.center.z - sz < 16 := by
  intro cube hm
  simp only [columnCubes, List.mem_flatMap, List.mem_map, List.mem_range] at hm
  obtain ⟨ix, hix, iy, hiy, iz, hiz, rfl⟩ := hm
  simp at hiz
  obtain ⟨izn, hizn, rfl⟩ := hiz
  refine ⟨?_, ?_, ?_, ?_, ?_, ?_⟩ <;> dsimp only <;> omega

/-- Inserting at a key makes lookup at that key return the new value. -/
theorem mapLookup_mapInsert_self (l : List ((Int × Int) × Chunk))
    (k : Int × Int) (c : Chunk) :
    mapLookup (mapInsert l k c) k = some c := by
  induction l with
  | nil => simp [mapInsert, mapLookup]
  | cons a t ih =>
      rcases a with ⟨k', c'⟩
      by_cases hk : k' = k
      · subst hk
        simp [mapInsert, mapLookup]
      · unfold mapInsert
        rw [if_neg hk]
        unfold mapLookup
        rw [if_neg hk]
        exact ih

/-- C9: calling `create_chunk` (the spec's `fill_region`) for a chunk key
that is already resident does not fail for any column height `h ≤ 255`:
the column is built, the existing chunk is replaced by the newly built one
in the map, and exactly one warning is reported for the whole call — not
one per voxel.  (Heights ≥ 256 panic for *any* key — resident or not —
because the y = 255 layer trips the line-110 indexing bug.) -/
theorem C9_duplicate_chunk_warns_once (w : World) (x z : Int) (h : Nat)
    (color : Color) (hh : h ≤ 255)
    (hres : (mapLookup w.chunks (chunk_id ⟨x, 0, z⟩)).isSome = true) :
    ∃ c : Chunk,
      pushList (Chunk.new (chunk_id ⟨x, 0, z⟩))
          (columnCubes (chunk_id ⟨x, 0, z⟩).1 h (chunk_id ⟨x, 0, z⟩).2 color) =
        some c ∧
      w.create_chunk x h z color =
        some (⟨mapInsert w.chunks (chunk_id ⟨x, 0, z⟩) c, true⟩, 1) ∧
      mapLookup (mapInsert w.chunks (chunk_id ⟨x, 0, z⟩) c)
          (chunk_id ⟨x, 0, z⟩) = some c := by
  obtain ⟨c, hpl, -⟩ := pushList_succeeds (chunk_id ⟨x, 0, z⟩)
    (columnCubes (chunk_id ⟨x, 0, z⟩).1 h (chunk_id ⟨x, 0, z⟩).2 color)
    (Chunk.new (chunk_id ⟨x, 0, z⟩)) rfl
    (columnCubes_mem (chunk_id ⟨x, 0, z⟩).1 h (chunk_id ⟨x, 0, z⟩).2 color hh)
  refine ⟨c, hpl, ?_, mapLookup_mapInsert_self _ _ _⟩
  unfold World.create_chunk
  dsimp only
  rw [hpl]
  dsimp only
  rw [if_pos (by simp_all)]

/-- Witness for C9: re-creating the already-resident chunk `(0,0)` of `w9`
with height 0 succeeds, replaces the chunk, and warns exactly once. -/
theorem C9_witness :
    (0 : Nat) ≤ 255 ∧
    (mapLookup w9.chunks (chunk_id ⟨0, 0, 0⟩)).isSome = true ∧
    ∃ c : Chunk,
      pushList (Chunk.new (chunk_id ⟨0, 0, 0⟩))
          (columnCubes (chunk_id ⟨0, 0, 0⟩).1 0 (chunk_id ⟨0, 0, 0⟩).2
            sampleColor) = some c ∧
      w9.create_chunk 0 0 0 sampleColor =
        some (⟨mapInsert w9.chunks (chunk_id ⟨0, 0, 0⟩) c, true⟩, 1) ∧
      mapLookup (mapInsert w9.chunks (chunk_id ⟨0, 0, 0⟩) c)
          (chunk_id ⟨0, 0, 0⟩) = some c :=
  ⟨by decide, by decide,
   C9_duplicate_chunk_warns_once w9 0 0 0 sampleColor (by decide) (by decide)⟩

/-! ## C4: the ray from (0.5, 0.5, 0.5) -/

theorem c4run (c : Int) (hc : c = 0 ∨ c = 1 ∨ c = 2 ∨ c = 3) :
    (c4world.bind fun w => runTracer w 64 (c4state c)).map
      (fun tr => tr.result_cube) = some none := by
  rcases hc with rfl | rfl | rfl | rfl <;> with_unfolding_all decide

/-- C4 amended: with the single voxel at `(3,0,0)` and the ray from
`(0.5,0.5,0.5)` in direction `(1,0,0)`, the result is `found = None` at
`max_radius = 3` and for every `max_radius` in `[0, 3)`: the rounded start
cell is `(1,1,1)`, so the traversal walks `(k,1,1)` and never reaches the
voxel — the claimed `Some (3,0,0)` for radius ≥ 3 does not occur. -/
theorem C4_amended_ray_misses :
    ((c4world.bind fun w =>
        w.cube_looking_at ⟨1 / 2, 1 / 2, 1 / 2⟩ ⟨1, 0, 0⟩ 3 64).map
      (fun tr => tr.result_cube) = some none) ∧
    (∀ r : ℚ, 0 ≤ r → r < 3 →
      (c4world.bind fun w =>
          w.cube_looking_at ⟨1 / 2, 1 / 2, 1 / 2⟩ ⟨1, 0, 0⟩ r 64).map
        (fun tr => tr.result_cube) = some none) := by
  constructor
  · with_unfolding_all decide
  · intro r h0 h3
    have hst : BlockRayTracer.new ⟨1 / 2, 1 / 2, 1 / 2⟩ ⟨1, 0, 0⟩ r =
        c4state ⌈r⌉ := by
      with_unfolding_all rfl
    have hc : ⌈r⌉ = 0 ∨ ⌈r⌉ = 1 ∨ ⌈r⌉ = 2 ∨ ⌈r⌉ = 3 := by
      have hlo : (0 : ℤ) ≤ ⌈r⌉ := Int.ceil_nonneg h0
      have hhi : ⌈r⌉ ≤ 3 := Int.ceil_le.mpr (by push_cast; linarith)
      omega
    simp only [World.cube_looking_at, hst]
    exact c4run ⌈r⌉ hc

/-- Witness for the quantified part of C4's amended statement, at
`max_radius = 3/2`. -/
theorem C4_witness :
    (0 : ℚ) ≤ 3 / 2 ∧ (3 / 2 : ℚ) < 3 ∧
    (c4world.bind fun w =>
        w.cube_looking_at ⟨1 / 2, 1 / 2, 1 / 2⟩ ⟨1, 0, 0⟩ (3 / 2) 64).map
      (fun tr => tr.result_cube) = some none :=
  ⟨by norm_num, by norm_num,
   C4_amended_ray_misses.2 (3 / 2) (by norm_num) (by norm_num)⟩

/-! ## C2: characterization of one `update_surroundings` pass -/

theorem updNeighbor_preserve {cb cb' : Cubes} {S : Pos3}
    (hoff : ∀ j, j ≠ (chunk_pos_to_index S).toNat → cb' j = cb j)
    (hskip : inRangeBuggy S = false ∨ cb (chunk_pos_to_index S).toNat = none →
      cb' = cb)
    (m : Nat)
    (hm : inRangeBuggy S = false ∨ m ≠ (chunk_pos_to_index S).toNat) :
    cb' m = cb m := by
  rcases hm with h | h
  · rw [hskip (Or.inl h)]
  · exact hoff m h

theorem isSome_false_eq_none {α : Type} {o : Option α} (h : o.isSome = false) :
    o = none := by
  cases o with
  | none => rfl
  | some v => simp at h

theorem list_set_eq_of_getElem {α : Type} :
    ∀ (l : List α) (m : Nat) (b : α), l[m]? = some b → l.set m b = l
  | [], m, b, h => by simp at h
  | a :: t, 0, b, h => by
      simp only [List.getElem?_cons_zero, Option.some.injEq] at h
      simp [List.set, h]
  | a :: t, m + 1, b, h => by
      simp only [List.getElem?_cons_succ] at h
      simp only [List.set]
      rw [list_set_eq_of_getElem t m b h]

theorem around_index_ne (p : Pos3) (hin : inExtent p)
    (hsafe : p.y ≤ 254 ∨ p.z ≤ 14) (i t : Fin 6) (hne : t ≠ i)
    (hi : inRangeBuggy (aroundPos p i) = true) :
    inRangeBuggy (aroundPos p t) = false ∨
      (chunk_pos_to_index (aroundPos p i)).toNat ≠
        (chunk_pos_to_index (aroundPos p t)).toNat := by
  obtain ⟨hx1, hx2, hy1, hy2, hz1, hz2⟩ := hin
  cases ht : inRangeBuggy (aroundPos p t) with
  | false => exact Or.inl rfl
  | true =>
      right
      obtain ⟨hgi, hli⟩ := aroundPos_bounds p hx1 hx2 hy1 hy2 hz1 hz2 hsafe i hi
      obtain ⟨hgt, hlt'⟩ := aroundPos_bounds p hx1 hx2 hy1 hy2 hz1 hz2 hsafe t ht
      fin_cases i <;> fin_cases t <;>
        first
          | exact absurd rfl hne
          | (simp only [aroundPos, chunk_pos_to_index, Y_STRIDE, Z_STRIDE]
               at hgi hli hgt hlt' ⊢
             omega)

theorem around_index_ne_center (p : Pos3) (hin : inExtent p)
    (hsafe : p.y ≤ 254 ∨ p.z ≤ 14) (i : Fin 6)
    (hi : inRangeBuggy (aroundPos p i) = true) :
    (chunk_pos_to_index (aroundPos p i)).toNat ≠
      (chunk_pos_to_index p).toNat := by
  obtain ⟨hx1, hx2, hy1, hy2, hz1, hz2⟩ := hin
  obtain ⟨hgi, hli⟩ := aroundPos_bounds p hx1 hx2 hy1 hy2 hz1 hz2 hsafe i hi
  obtain ⟨hgk, hlk⟩ :=
    chunk_pos_to_index_bounds p ⟨hx1, hx2, hy1, hy2, hz1, hz2⟩
  fin_cases i <;>
    (simp only [aroundPos, chunk_pos_to_index, Y_STRIDE, Z_STRIDE]
       at hgi hli hgk hlk ⊢
     omega)

/-- Full characterization of one `update_surroundings` pass at an
in-extent position outside the panic corner: it succeeds; start and dirty
are unchanged; occupancy is unchanged everywhere; each occupied neighbor
that passes the range check gets exactly its facing bit set to the center
cell's occupancy; and every index that is neither the center nor a
range-check-passing neighbor keeps its exact value. -/
theorem update_surroundings_spec (c : Chunk) (p : Pos3) (hin : inExtent p)
    (hsafe : p.y ≤ 254 ∨ p.z ≤ 14) :
    ∃ c', c.update_surroundings p = some c' ∧
      c'.start = c.start ∧ c'.dirty = c.dirty ∧
      (∀ j, (c'.cubes j).isSome = (c.cubes j).isSome) ∧
      (∀ i : Fin 6, inRangeBuggy (aroundPos p i) = true →
        ∀ other, c.cubes (chunk_pos_to_index (aroundPos p i)).toNat = some other →
          c'.cubes (chunk_pos_to_index (aroundPos p i)).toNat =
            some { other with
                   sides_present := other.sides_present.set (i.val ^^^ 1)
                     ((c.cubes (chunk_pos_to_index p).toNat).isSome) }) ∧
      (∀ j, (∀ t : Fin 6, inRangeBuggy (aroundPos p t) = true →
          j ≠ (chunk_pos_to_index (aroundPos p t)).toNat) →
        j ≠ (chunk_pos_to_index p).toNat → c'.cubes j = c.cubes j) := by
  obtain ⟨hx1, hx2, hy1, hy2, hz1, hz2⟩ := hin
  obtain ⟨hge, hlt⟩ :=
    chunk_pos_to_index_bounds p ⟨hx1, hx2, hy1, hy2, hz1, hz2⟩
  have hb : ∀ i : Fin 6, inRangeBuggy (aroundPos p i) = true →
      0 ≤ chunk_pos_to_index (aroundPos p i) ∧
        chunk_pos_to_index (aroundPos p i) < 16 * 256 * 16 :=
    aroundPos_bounds p hx1 hx2 hy1 hy2 hz1 hz2 hsafe
  unfold Chunk.update_surroundings
  rw [if_pos ⟨hge, hlt⟩]
  dsimp only
  obtain ⟨cb1, p1, he1, hoff1, hskip1, hset1, hocc1⟩ :=
    updNeighbor_spec ((c.cubes (chunk_pos_to_index p).toNat).isSome) 0
      (aroundPos p 0) c.cubes (List.replicate 6 false) (hb 0)
  rw [he1]
  dsimp only
  obtain ⟨cb2, p2, he2, hoff2, hskip2, hset2, hocc2⟩ :=
    updNeighbor_spec ((c.cubes (chunk_pos_to_index p).toNat).isSome) 1
      (aroundPos p 1) cb1 p1 (hb 1)
  rw [he2]
  dsimp only
  obtain ⟨cb3, p3, he3, hoff3, hskip3, hset3, hocc3⟩ :=
    updNeighbor_spec ((c.cubes (chunk_pos_to_index p).toNat).isSome) 2
      (aroundPos p 2) cb2 p2 (hb 2)
  rw [he3]
  dsimp only
  obtain ⟨cb4, p4, he4, hoff4, hskip4, hset4, hocc4⟩ :=
    updNeighbor_spec ((c.cubes (chunk_pos_to_index p).toNat).isSome) 3
      (aroundPos p 3) cb3 p3 (hb 3)
  rw [he4]
  dsimp only
  obtain ⟨cb5, p5, he5, hoff5, hskip5, hset5, hocc5⟩ :=
    updNeighbor_spec ((c.cubes (chunk_pos_to_index p).toNat).isSome) 4
      (aroundPos p 4) cb4 p4 (hb 4)
  rw [he5]
  dsimp only
  obtain ⟨cb6, p6, he6, hoff6, hskip6, hset6, hocc6⟩ :=
    updNeighbor_spec ((c.cubes (chunk_pos_to_index p).toNat).isSome) 5
      (aroundPos p 5) cb5 p5 (hb 5)
  rw [he6]
  dsimp only
  have hext : inExtent p := ⟨hx1, hx2, hy1, hy2, hz1, hz2⟩
  have hoccall : ∀ j, (cb6 j).isSome = (c.cubes j).isSome := fun j =>
    (hocc6 j).trans ((hocc5 j).trans ((hocc4 j).trans ((hocc3 j).trans
      ((hocc2 j).trans (hocc1 j)))))
  have hval : ∀ i : Fin 6, inRangeBuggy (aroundPos p i) = true →
      ∀ other, c.cubes (chunk_pos_to_index (aroundPos p i)).toNat = some other →
      cb6 (chunk_pos_to_index (aroundPos p i)).toNat =
        some { other with
               sides_present := other.sides_present.set (i.val ^^^ 1)
                 ((c.cubes (chunk_pos_to_index p).toNat).isSome) } := by
    intro i hiR other hother
    have hpres : ∀ t : Fin 6, t ≠ i →
        inRangeBuggy (aroundPos p t) = false ∨
        (chunk_pos_to_index (aroundPos p i)).toNat ≠
          (chunk_pos_to_index (aroundPos p t)).toNat :=
      fun t ht => around_index_ne p hext hsafe i t ht hiR
    fin_cases i
    · exact ((updNeighbor_preserve hoff6 hskip6 _ (hpres 5 (by decide))).trans
        ((updNeighbor_preserve hoff5 hskip5 _ (hpres 4 (by decide))).trans
        ((updNeighbor_preserve hoff4 hskip4 _ (hpres 3 (by decide))).trans
        ((updNeighbor_preserve hoff3 hskip3 _ (hpres 2 (by decide))).trans
        ((updNeighbor_preserve hoff2 hskip2 _ (hpres 1 (by decide))).trans
          (hset1 other hiR hother))))))
    · exact ((updNeighbor_preserve hoff6 hskip6 _ (hpres 5 (by decide))).trans
        ((updNeighbor_preserve hoff5 hskip5 _ (hpres 4 (by decide))).trans
        ((updNeighbor_preserve hoff4 hskip4 _ (hpres 3 (by decide))).trans
        ((updNeighbor_preserve hoff3 hskip3 _ (hpres 2 (by decide))).trans
          (hset2 other hiR
            ((updNeighbor_preserve hoff1 hskip1 _ (hpres 0 (by decide))).trans
              hother))))))
    · exact ((updNeighbor_preserve hoff6 hskip6 _ (hpres 5 (by decide))).trans
        ((updNeighbor_preserve hoff5 hskip5 _ (hpres 4 (by decide))).trans
        ((updNeighbor_preserve hoff4 hskip4 _ (hpres 3 (by decide))).trans
          (hset3 other hiR
            ((updNeighbor_preserve hoff2 hskip2 _ (hpres 1 (by decide))).trans
              ((updNeighbor_preserve hoff1 hskip1 _ (hpres 0 (by decide))).trans
                hother))))))
    · exact ((updNeighbor_preserve hoff6 hskip6 _ (hpres 5 (by decide))).trans
        ((updNeighbor_preserve hoff5 hskip5 _ (hpres 4 (by decide))).trans
          (hset4 other hiR
            ((updNeighbor_preserve hoff3 hskip3 _ (hpres 2 (by decide))).trans
              ((updNeighbor_preserve hoff2 hskip2 _ (hpres 1 (by decide))).trans
                ((updNeighbor_preserve hoff1 hskip1 _ (hpres 0 (by decide))).trans
                  hother))))))
    · exact ((updNeighbor_preserve hoff6 hskip6 _ (hpres 5 (by decide))).trans
        (hset5 other hiR
          ((updNeighbor_preserve hoff4 hskip4 _ (hpres 3 (by decide))).trans
            ((updNeighbor_preserve hoff3 hskip3 _ (hpres 2 (by decide))).trans
              ((updNeighbor_preserve hoff2 hskip2 _ (hpres 1 (by decide))).trans
                ((updNeighbor_preserve hoff1 hskip1 _ (hpres 0 (by decide))).trans
                  hother))))))
    · exact hset6 other hiR
        ((updNeighbor_preserve hoff5 hskip5 _ (hpres 4 (by decide))).trans
          ((updNeighbor_preserve hoff4 hskip4 _ (hpres 3 (by decide))).trans
            ((updNeighbor_preserve hoff3 hskip3 _ (hpres 2 (by decide))).trans
              ((updNeighbor_preserve hoff2 hskip2 _ (hpres 1 (by decide))).trans
                ((updNeighbor_preserve hoff1 hskip1 _ (hpres 0 (by decide))).trans
                  hother)))))
  have hoffall : ∀ j, (∀ t : Fin 6, inRangeBuggy (aroundPos p t) = true →
      j ≠ (chunk_pos_to_index (aroundPos p t)).toNat) →
      cb6 j = c.cubes j := by
    intro j hj
    have hcase : ∀ t : Fin 6, inRangeBuggy (aroundPos p t) = false ∨
        j ≠ (chunk_pos_to_index (aroundPos p t)).toNat := by
      intro t
      cases hRt : inRangeBuggy (aroundPos p t) with
      | false => exact Or.inl rfl
      | true => exact Or.inr (hj t hRt)
    exact ((updNeighbor_preserve hoff6 hskip6 _ (hcase 5)).trans
      ((updNeighbor_preserve hoff5 hskip5 _ (hcase 4)).trans
      ((updNeighbor_preserve hoff4 hskip4 _ (hcase 3)).trans
      ((updNeighbor_preserve hoff3 hskip3 _ (hcase 2)).trans
      ((updNeighbor_preserve hoff2 hskip2 _ (hcase 1)).trans
        (updNeighbor_preserve hoff1 hskip1 _ (hcase 0)))))))
  cases hk6 : cb6 (chunk_pos_to_index p).toNat with
  | none =>
      refine ⟨_, rfl, rfl, rfl, hoccall, ?_, ?_⟩
      · intro i hiR other hother
        exact hval i hiR other hother
      · intro j hj _
        exact hoffall j hj
  | some cur =>
      refine ⟨_, rfl, rfl, rfl, ?_, ?_, ?_⟩
      · intro j
        by_cases hjk : j = (chunk_pos_to_index p).toNat
        · subst hjk
          have hksome : (c.cubes (chunk_pos_to_index p).toNat).isSome = true := by
            rw [← hoccall (chunk_pos_to_index p).toNat, hk6]
            rfl
          simp only [updateAt, if_pos rfl]
          rw [hksome]
          rfl
        · simp only [updateAt, if_neg hjk]
          exact hoccall j
      · intro i hiR other hother
        have hne := around_index_ne_center p hext hsafe i hiR
        simp only [updateAt, if_neg hne]
        exact hval i hiR other hother
      · intro j hj hjk
        simp only [updateAt, if_neg hjk]
        exact hoffall j hj

theorem in_chunk_pos_congr {c c' : Chunk} (h : c'.start = c.start) (q : Pos3) :
    c'.in_chunk_pos q = c.in_chunk_pos q := by
  unfold Chunk.in_chunk_pos Chunk.in_relative_chunk_pos
  rw [h]

/-- C2 amended: for a position P in the chunk's footprint whose cell is
unoccupied, whose local position is not the panic corner (y = 255, z = 15),
and such that every occupied cell the neighbor update touches has its mask
bit toward P already clear, `place(P, color)` followed by `remove(P)`
returns normally and leaves the cell array — occupancy and every mask —
and the start corner exactly as before the place. -/
theorem C2_place_remove_restores (c : Chunk) (p cp : Pos3) (color : Color)
    (hcp : c.in_chunk_pos p = some cp)
    (hempty : c.cubes (chunk_pos_to_index cp).toNat = none)
    (hsafe : cp.y ≤ 254 ∨ cp.z ≤ 14)
    (hnb : ∀ i : Fin 6, inRangeBuggy (aroundPos cp i) = true →
      ∀ other,
        c.cubes (chunk_pos_to_index (aroundPos cp i)).toNat = some other →
        other.sides_present[i.val ^^^ 1]? = some false) :
    ∃ c₁ c₂, c.push_cube ⟨p, color⟩ = some c₁ ∧ c₁.remove_cube p = some c₂ ∧
      c₂.cubes = c.cubes ∧ c₂.start = c.start := by
  have hin : inExtent cp := by
    have h := hcp
    simp only [Chunk.in_chunk_pos] at h
    by_cases hx : inExtent (c.in_relative_chunk_pos p)
    · rw [if_pos hx] at h
      exact (Option.some.inj h) ▸ hx
    · rw [if_neg hx] at h
      exact absurd h (by simp)
  obtain ⟨cB, heB, hstB, hdB, hoccB, hwriteB, hoffB⟩ :=
    update_surroundings_spec
      { c with
        cubes :=
          (updateAt c.cubes (chunk_pos_to_index cp).toNat
            (some ⟨color, List.replicate 6 false⟩)) }
      cp hin hsafe
  have hpush : c.push_cube ⟨p, color⟩ = some { cB with dirty := true } := by
    unfold Chunk.push_cube
    rw [hcp]
    dsimp only
    rw [heB]
  have hcp1 : ({ cB with dirty := true } : Chunk).in_chunk_pos p = some cp :=
    (in_chunk_pos_congr (show ({ cB with dirty := true } : Chunk).start = c.start
      from hstB) p).trans hcp
  obtain ⟨cC, heC, hstC, hdC, hoccC, hwriteC, hoffC⟩ :=
    update_surroundings_spec
      { ({ cB with dirty := true } : Chunk) with
        cubes :=
          (updateAt ({ cB with dirty := true } : Chunk).cubes
            (chunk_pos_to_index cp).toNat none) }
      cp hin hsafe
  have hremove : ({ cB with dirty := true } : Chunk).remove_cube p =
      some { cC with dirty := true } := by
    unfold Chunk.remove_cube
    rw [hcp1]
    dsimp only
    rw [heC]
  refine ⟨_, _, hpush, hremove, ?_, ?_⟩
  · show cC.cubes = c.cubes
    funext j
    by_cases hjk : j = (chunk_pos_to_index cp).toNat
    · subst hjk
      have h1 : (cC.cubes (chunk_pos_to_index cp).toNat).isSome = false := by
        rw [hoccC]
        simp [updateAt]
      rw [isSome_false_eq_none h1, hempty]
    · by_cases hex : ∃ i : Fin 6, inRangeBuggy (aroundPos cp i) = true ∧
          j = (chunk_pos_to_index (aroundPos cp i)).toNat
      · obtain ⟨i, hiR, rfl⟩ := hex
        cases hcv : c.cubes (chunk_pos_to_index (aroundPos cp i)).toNat with
        | none =>
            have h2 : (cC.cubes
                (chunk_pos_to_index (aroundPos cp i)).toNat).isSome = false := by
              rw [hoccC]
              dsimp only
              simp only [updateAt, if_neg hjk]
              rw [hoccB]
              dsimp only
              simp only [updateAt, if_neg hjk]
              rw [hcv]
              rfl
            rw [isSome_false_eq_none h2]
        | some other =>
            have hbit := hnb i hiR other hcv
            have hAval := hwriteB i hiR other
              (by dsimp only; simp only [updateAt, if_neg hjk]; exact hcv)
            dsimp only at hAval
            simp only [updateAt, eq_self_iff_true, ite_true,
              Option.isSome_some] at hAval
            have hCval := hwriteC i hiR _
              (by dsimp only; simp only [updateAt, if_neg hjk]; exact hAval)
            dsimp only at hCval
            simp only [updateAt, eq_self_iff_true, ite_true,
              Option.isSome_none] at hCval
            rw [hCval]
            congr 1
            dsimp only
            rw [List.set_set, list_set_eq_of_getElem _ _ _ hbit]
      · push_neg at hex
        rw [hoffC j hex hjk]
        dsimp only
        simp only [updateAt, if_neg hjk]
        rw [hoffB j hex hjk]
        dsimp only
        simp only [updateAt, if_neg hjk]
  · show cC.start = c.start
    exact hstC.trans hstB

/-- Witness for C2's amended statement: the empty chunk at start `(0,0)`
and position `(5,5,5)`. -/
theorem C2_witness :
    (Chunk.new (0, 0)).in_chunk_pos ⟨5, 5, 5⟩ = some ⟨5, 5, 5⟩ ∧
    (Chunk.new (0, 0)).cubes (chunk_pos_to_index ⟨5, 5, 5⟩).toNat = none ∧
    ((5 : Int) ≤ 254 ∨ (5 : Int) ≤ 14) ∧
    (∃ c₁ c₂, (Chunk.new (0, 0)).push_cube ⟨⟨5, 5, 5⟩, sampleColor⟩ = some c₁ ∧
      c₁.remove_cube ⟨5, 5, 5⟩ = some c₂ ∧
      c₂.cubes = (Chunk.new (0, 0)).cubes ∧
      c₂.start = (Chunk.new (0, 0)).start) :=
  ⟨rfl, rfl, Or.inl (by decide),
   C2_place_remove_restores (Chunk.new (0, 0)) ⟨5, 5, 5⟩ ⟨5, 5, 5⟩ sampleColor
     rfl rfl (Or.inl (by decide))
     (fun i hR other hother => Option.noConfusion hother)⟩

end VoxelWorld
